import Mathlib

/-
  Verification of the cluster-merging engine of the transcriptomic_clustering
  repository (transcriptomic_clustering/merging.py), via a shallow embedding
  into Lean 4.

  Modelling conventions:
  * Cluster labels and observation indices are natural numbers.
  * A pandas Series of per-feature values is a Row := List (Option ℚ), where
    none stands for a missing value (NaN); binary arithmetic aligns
    positionally up to the longer length, missing positions producing none,
    exactly as pandas aligns integer-named columns 0..n-1.
  * A pandas DataFrame indexed by cluster label is a DF: a column count
    together with an ordered association list from label to row.
  * Python dicts are ordered association lists.
  * Exceptions (KeyError, IndexError, ZeroDivisionError) are Except Unit.
  * The two floating-point similarity kernels of calculate_similarity
    (Pearson correlation for more than 2 features, else normalized euclidean
    distance) are abstracted as a Kernel parameter: floating point is not
    modelled, and no claim settled here depends on the kernel values.
  * The external DE scorers (de_pairs_chisq / de_pairs_ebayes) are a Scorer
    parameter, as they are external collaborators of the merging engine.
  * The two unbounded while loops are modelled with explicit fuel; the result
    type Res distinguishes a normal return, a raised exception, and fuel
    exhaustion, so termination is the statement that sufficient fuel is never
    exhausted.
-/

namespace TC

/-- Association-list lookup: the value bound to the first occurrence of a key
(Python dict / pandas index lookup). -/
def getKey {κ β : Type} [DecidableEq κ] : List (κ × β) → κ → Option β
  | [], _ => none
  | (k₂, v) :: rest, k => if k₂ = k then some v else getKey rest k

/-- Association-list update: replace the value at the first occurrence of the
key, or append a new binding if the key is absent (Python dict assignment,
pandas loc-assignment). -/
def setKey {κ β : Type} [DecidableEq κ] : List (κ × β) → κ → β → List (κ × β)
  | [], k, v => [(k, v)]
  | (k₂, v₂) :: rest, k, v => if k₂ = k then (k, v) :: rest else (k₂, v₂) :: setKey rest k v

/-- Association-list removal of the first occurrence of a key (Python dict
pop, pandas drop). -/
def eraseKey {κ β : Type} [DecidableEq κ] : List (κ × β) → κ → List (κ × β)
  | [], _ => []
  | (k₂, v₂) :: rest, k => if k₂ = k then rest else (k₂, v₂) :: eraseKey rest k

/-- A single pandas value: `none` models NaN / a missing entry. -/
abbrev Val := Option ℚ

/-- A pandas Series of per-feature values, positionally indexed. -/
abbrev Row := List Val

/-- Elementwise combination of two aligned Series: positions are aligned up to
the longer length, and a missing operand yields a missing result, exactly as
pandas aligns integer-named columns and propagates NaN. -/
def seriesZip (f : ℚ → ℚ → ℚ) (r₁ r₂ : Row) : Row :=
  List.zipWith
    (fun a b => match a, b with
      | some x, some y => some (f x y)
      | _, _ => none)
    (r₁ ++ List.replicate (max r₁.length r₂.length - r₁.length) none)
    (r₂ ++ List.replicate (max r₁.length r₂.length - r₂.length) none)

/-- Series + Series (pandas aligned addition). -/
def seriesAdd (r₁ r₂ : Row) : Row := seriesZip (fun x y => x + y) r₁ r₂

/-- Series - Series (pandas aligned subtraction). -/
def seriesSub (r₁ r₂ : Row) : Row := seriesZip (fun x y => x - y) r₁ r₂

/-- scalar * Series. -/
def seriesScale (c : ℚ) (r : Row) : Row := r.map (Option.map (fun x => c * x))

/-- Series ** 2. -/
def seriesSq (r : Row) : Row := r.map (Option.map (fun x => x ^ 2))

/-- Series / scalar. Division by the integer scalar 0 is numpy elementwise
division producing non-finite values, modelled as all-missing. -/
def seriesDivScalar (r : Row) (c : ℚ) : Row :=
  if c = 0 then r.map (fun _ => none) else r.map (Option.map (fun x => x / c))

/-- A pandas DataFrame indexed by cluster label: a fixed column count and an
ordered association list from label to row. -/
structure DF where
  cols : Nat
  rows : List (Nat × Row)
deriving DecidableEq

/-- Align a Series to a column index of length `n` (pandas alignment on
row assignment): keep positions below `n`, pad missing positions with NaN. -/
def alignToCols : Nat → Row → Row
  | 0, _ => []
  | n + 1, [] => none :: alignToCols n []
  | n + 1, v :: r => v :: alignToCols n r

/-- DataFrame row lookup by label (`df.loc[label]`, KeyError as `none`). -/
def DF.locGet (df : DF) (l : Nat) : Option Row := getKey df.rows l

/-- DataFrame row assignment (`df.loc[label] = series`), aligning the series
to the column index; appends the row if the label is new. -/
def DF.locSet (df : DF) (l : Nat) (r : Row) : DF :=
  { df with rows := setKey df.rows l (alignToCols df.cols r) }

/-- DataFrame row removal (`df.drop(label)`). -/
def DF.drop (df : DF) (l : Nat) : DF := { df with rows := eraseKey df.rows l }

/-- `cluster_assignments`: ordered map from cluster label to the list of
observation indices belonging to the cluster. -/
abbrev Assignments := List (Nat × List Nat)

/-- Total observation count over all clusters. -/
def sizeSum (ca : Assignments) : Nat := (ca.map (fun kv => kv.2.length)).sum

/-- The floating-point numeric core of `calculate_similarity` (Pearson
correlation of cluster means for more than 2 features, else
`pdist_normalized`), abstracted: given the subset of cluster mean rows, it
yields the similarity value for a (row label, column label) pair, `none`
modelling NaN. Floating-point arithmetic itself is outside the embedding. -/
abbrev Kernel := List (Nat × Row) → Nat → Nat → Val

/-- The size-weighted combined mean of the spec:
`(mean_source * n_source + mean_dest * n_dest) / (n_source + n_dest)`. -/
def specCombinedMean (n₁ n₂ m₁ m₂ : ℚ) : ℚ := (m₁ * n₁ + m₂ * n₂) / (n₁ + n₂)

/-- The pooled-variance-with-mean-shift formula of the spec, with the weight
`n_source` on BOTH mean-shift correction terms, as flagged in the spec. -/
def specPooledVar (n₁ n₂ m₁ m₂ v₁ v₂ : ℚ) : ℚ :=
  ((n₁ - 1) * v₁ + n₁ * (m₁ - specCombinedMean n₁ n₂ m₁ m₂) ^ 2 +
   (n₂ - 1) * v₂ + n₁ * (m₂ - specCombinedMean n₁ n₂ m₁ m₂) ^ 2) / (n₁ + n₂ - 1)

/-- Four-list pointwise zip, used to state the variance formula. -/
def zip4With (f : ℚ → ℚ → ℚ → ℚ → ℚ) : List ℚ → List ℚ → List ℚ → List ℚ → List ℚ
  | a :: as, b :: bs, c :: cs, d :: ds => f a b c d :: zip4With f as bs cs ds
  | _, _, _, _ => []

/-- Embedding of `merge_cluster_means_vars` (merging.py lines 145-197):
combine the source and destination mean rows by the size-weighted average,
store the result at the destination and drop the source row; if a variance
table is given, do the same with the pooled-variance formula. Missing labels
raise KeyError; `1 / (n1 + n2 - 1)` raises ZeroDivisionError when the sizes
sum to 1. -/
def merge_cluster_means_vars (ca : Assignments) (src dst : Nat) (means : DF)
    (variances : Option DF) : Except Unit (DF × Option DF) :=
  match getKey ca src, getKey ca dst with
  | some idx₁, some idx₂ =>
    match means.locGet src, means.locGet dst with
    | some mean₁, some mean₂ =>
      let n₁ : ℚ := idx₁.length
      let n₂ : ℚ := idx₂.length
      let mean_comb := seriesDivScalar (seriesAdd (seriesScale n₁ mean₁) (seriesScale n₂ mean₂)) (n₁ + n₂)
      let means₂ := (means.locSet dst mean_comb).drop src
      match variances with
      | none => .ok (means₂, none)
      | some vars =>
        match vars.locGet src, vars.locGet dst with
        | some var₁, some var₂ =>
          if n₁ + n₂ - 1 = 0 then .error () else
          let var_comb := seriesScale (1 / (n₁ + n₂ - 1))
            (seriesAdd
              (seriesAdd
                (seriesAdd (seriesScale (n₁ - 1) var₁)
                  (seriesScale n₁ (seriesSq (seriesSub mean₁ mean_comb))))
                (seriesScale (n₂ - 1) var₂))
              (seriesScale n₁ (seriesSq (seriesSub mean₂ mean_comb))))
          .ok (means₂, some ((vars.locSet dst var_comb).drop src))
        | _, _ => .error ()
    | _, _ => .error ()
  | _, _ => .error ()

/-- The cluster-assignment update of `merge_two_clusters` (lines 140-142):
`cluster_assignments[label_dest] += cluster_assignments[label_source]`
followed by popping the source label. -/
def merge_assignments (ca : Assignments) (src dst : Nat) : Except Unit Assignments :=
  match getKey ca src, getKey ca dst with
  | some sArr, some dArr => .ok (eraseKey (setKey ca dst (dArr ++ sArr)) src)
  | _, _ => .error ()

/-- Embedding of `merge_two_clusters` (lines 102-142): merge means and
variances, then the present-means table if given, then the assignments. -/
def merge_two_clusters (ca : Assignments) (src dst : Nat) (means : DF)
    (variances present_means : Option DF) :
    Except Unit (Assignments × DF × Option DF × Option DF) :=
  match merge_cluster_means_vars ca src dst means variances with
  | .error e => .error e
  | .ok (means₂, vars₂) =>
    match present_means with
    | none =>
      match merge_assignments ca src dst with
      | .error e => .error e
      | .ok ca₂ => .ok (ca₂, means₂, vars₂, none)
    | some pm =>
      match merge_cluster_means_vars ca src dst pm none with
      | .error e => .error e
      | .ok (pm₂, _) =>
        match merge_assignments ca src dst with
        | .error e => .error e
        | .ok ca₂ => .ok (ca₂, means₂, vars₂, some pm₂)

/-- A similarity table restricted to given rows and columns: row-major list of
(row label, column label, value) with `none` for NaN. -/
abbrev SimTable := List (Nat × Nat × Val)

/-- `cluster_means.loc[labels]`: look every label up, KeyError if one is
missing. -/
def lookupAll (df : DF) : List Nat → Except Unit (List (Nat × Row))
  | [] => .ok []
  | l :: rest =>
    match getKey df.rows l with
    | none => .error ()
    | some r =>
      match lookupAll df rest with
      | .error e => .error e
      | .ok rs => .ok ((l, r) :: rs)

/-- Embedding of `calculate_similarity` (lines 222-261): take the deduplicated
union of the two label groups, look their mean rows up, compute the square
similarity matrix through the numeric kernel, overwrite the diagonal with NaN
(`np.fill_diagonal(..., np.nan)`), and restrict to the requested
rows x columns rectangle. -/
def calculate_similarity (kernel : Kernel) (cluster_means : DF)
    (group_rows group_cols : List Nat) : Except Unit SimTable :=
  match lookupAll cluster_means ((group_rows ++ group_cols).dedup) with
  | .error e => .error e
  | .ok subMeans =>
    .ok (group_rows.flatMap (fun r =>
      group_cols.map (fun c => (r, c, if r = c then none else kernel subMeans r c))))

/-- First entry attaining the maximal value (the head of the
descending-sorted, NaN-dropped unstacked table). -/
def maxByVal : List (Nat × Nat × ℚ) → Option (Nat × Nat × ℚ)
  | [] => none
  | e :: rest =>
    match maxByVal rest with
    | none => some e
    | some m => if m.2.2 > e.2.2 then some m else some e

/-- Embedding of `find_most_similar` (lines 264-286): drop NaN entries and
return the (source label, destination label, value) triple with the maximal
similarity; an empty table raises IndexError. -/
def find_most_similar (sim : SimTable) : Except Unit (Nat × Nat × ℚ) :=
  match maxByVal (sim.filterMap (fun e => e.2.2.map (fun v => (e.1, e.2.1, v)))) with
  | none => .error ()
  | some t => .ok t

/-- Embedding of `find_small_clusters` (lines 289-294). -/
def find_small_clusters (ca : Assignments) (min_size : Nat) : List Nat :=
  (ca.filter (fun kv => kv.2.length < min_size)).map Prod.fst

/-- Loop result: normal return, raised exception, or fuel exhaustion. -/
inductive Res (α : Type) where
  | ok : α → Res α
  | err : Res α
  | fuelOut : Res α
deriving DecidableEq

/-- Embedding of `merge_small_clusters` (lines 297-341): while small clusters
remain, compute the similarity of the small clusters (rows) against all
clusters (columns), merge the globally most similar pair, and recompute the
label sets. The loop is modelled with fuel. -/
def merge_small_clusters (kernel : Kernel) (fuel : Nat) (cluster_means : DF)
    (ca : Assignments) (min_size : Nat) : Res (DF × Assignments) :=
  match fuel with
  | 0 => .fuelOut
  | fuel + 1 =>
    let all_cluster_labels := ca.map Prod.fst
    let small_cluster_labels := find_small_clusters ca min_size
    if small_cluster_labels.isEmpty then .ok (cluster_means, ca)
    else
      match calculate_similarity kernel cluster_means small_cluster_labels all_cluster_labels with
      | .error _ => .err
      | .ok sim =>
        match find_most_similar sim with
        | .error _ => .err
        | .ok (source_label, dest_label, _) =>
          match merge_two_clusters ca source_label dest_label cluster_means none none with
          | .error _ => .err
          | .ok (ca₂, means₂, _, _) => merge_small_clusters kernel fuel means₂ ca₂ min_size

/-- Stable descending insertion by the numeric component
(`sort_values(ascending=False)`). -/
def insertDescByVal (x : Nat × ℚ) : List (Nat × ℚ) → List (Nat × ℚ)
  | [] => [x]
  | y :: ys => if x.2 < y.2 then y :: insertDescByVal x ys else x :: y :: ys

/-- Descending sort of per-cluster similarities. -/
def sortDescByVal (l : List (Nat × ℚ)) : List (Nat × ℚ) := l.foldr insertDescByVal []

/-- The set insertion of `get_k_nearest_clusters`: skip the pair if the
reversed pair is already recorded, and (set semantics) if the pair itself is. -/
def addPair (acc : List (Nat × Nat)) (c n : Nat) : List (Nat × Nat) :=
  if (n, c) ∈ acc then acc else if (c, n) ∈ acc then acc else acc ++ [(c, n)]

/-- The inner `for i in range(k)` loop of `get_k_nearest_clusters`: take the
first k neighbors from the descending-sorted similarity column; running out of
entries raises IndexError. -/
def knnTake (c : Nat) : Nat → List (Nat × ℚ) → List (Nat × Nat) → Except Unit (List (Nat × Nat))
  | 0, _, acc => .ok acc
  | _ + 1, [], _ => .error ()
  | k + 1, (n, _) :: rest, acc => knnTake c k rest (addPair acc c n)

/-- The outer loop of `get_k_nearest_clusters`: for each cluster label c,
select the non-NaN entries of column c of the unstacked similarity table
(`similarity.loc[(c, )]`, KeyError if empty), sort them descending, and take
the first k. -/
def knnOuter (entries : List (Nat × Nat × ℚ)) (k : Nat) :
    List Nat → List (Nat × Nat) → Except Unit (List (Nat × Nat))
  | [], acc => .ok acc
  | c :: cs, acc =>
    let colc := entries.filterMap (fun e => if e.2.1 = c then some (e.1, e.2.2) else none)
    if colc.isEmpty then .error ()
    else
      match knnTake c k (sortDescByVal colc) acc with
      | .error e => .error e
      | .ok acc₂ => knnOuter entries k cs acc₂

/-- Embedding of `get_k_nearest_clusters` (lines 456-503). The boolean result
records whether the non-fatal warning was emitted (k clamped to 2). -/
def get_k_nearest_clusters (kernel : Kernel) (cluster_means : DF) (k : Nat) :
    Except Unit (Bool × List (Nat × Nat)) :=
  match calculate_similarity kernel cluster_means (cluster_means.rows.map Prod.fst)
      (cluster_means.rows.map Prod.fst) with
  | .error e => .error e
  | .ok sim =>
    match knnOuter (sim.filterMap (fun e => e.2.2.map (fun v => (e.1, e.2.1, v))))
        (if (cluster_means.rows.map Prod.fst).length ≤ k then 2 else k)
        (cluster_means.rows.map Prod.fst) [] with
    | .error e => .error e
    | .ok pairs =>
      .ok (if (cluster_means.rows.map Prod.fst).length ≤ k then true else false, pairs)

/-- Embedding of `order_pairs` (lines 506-531): put the smaller label first. -/
def order_pairs (neighbor_pairs : List (Nat × Nat)) : List (Nat × Nat) :=
  neighbor_pairs.map (fun p => if p.1 < p.2 then (p.1, p.2) else (p.2, p.1))

/-- A thresholds dict: string keys, optional numeric values (None allowed). -/
abbrev Thresholds := List (String × Option ℚ)

/-- `thresholds.pop(key)`: return the value and the dict without the first
binding of the key; KeyError if absent. -/
def popKey (th : Thresholds) (s : String) : Except Unit (Option ℚ × Thresholds) :=
  match getKey th s with
  | none => .error ()
  | some v => .ok (v, eraseKey th s)

/-- `DEFAULT_THRESHOLDS` (merging.py lines 11-20). -/
def DEFAULT_THRESHOLDS : Thresholds :=
  [("q1_thresh", some (1 / 2)), ("q2_thresh", none), ("cluster_size_thresh", some 6),
   ("qdiff_thresh", some (7 / 10)), ("padj_thresh", some (1 / 20)), ("lfc_thresh", some 1),
   ("score_thresh", some 150), ("low_thresh", some 1)]

/-- The external DE scoring collaborator (`tc.de_pairs_chisq` /
`tc.de_pairs_ebayes`): given the candidate pairs, the statistics tables, the
cluster sizes and the thresholds, it yields one numeric score per row. -/
abbrev Scorer := List (Nat × Nat) → DF → DF → DF → List (Nat × Nat) → Thresholds →
  List ((Nat × Nat) × ℚ)

/-- Stable ascending insertion by score (`sort_values(by=score)`). -/
def insertAscByScore (x : (Nat × Nat) × ℚ) :
    List ((Nat × Nat) × ℚ) → List ((Nat × Nat) × ℚ)
  | [] => [x]
  | y :: ys => if y.2 < x.2 then y :: insertAscByScore x ys else x :: y :: ys

/-- Ascending sort of the scored pairs. -/
def sortAscByScore (l : List ((Nat × Nat) × ℚ)) : List ((Nat × Nat) × ℚ) :=
  l.foldr insertAscByScore []

/-- `score >= score_th` where the threshold came out of the dict: comparing
against a stored None is a Python TypeError. -/
def qge (score : ℚ) (score_th : Option ℚ) : Except Unit Bool :=
  match score_th with
  | some th => .ok (if th ≤ score then true else false)
  | none => .error ()

/-- The mutable state of `merge_clusters_by_de`: the partition, the
full-feature statistics tables, the reduced-space means and the running
cluster sizes. -/
structure DEState where
  ca : Assignments
  means : DF
  vars : DF
  present : DF
  means_rd : DF
  cl_size : List (Nat × Nat)
deriving DecidableEq

/-- The per-round walk over the score-sorted candidate list (lines 427-452):
stop at the first score at or above the threshold; skip a pair if either label
already participated in a merge this round; otherwise merge the source into
the destination in the reduced-space means, the full statistics tables, the
assignments and the size bookkeeping. Returns the final state and the list of
executed merges (dest, source) of the round. -/
def de_merge_walk (score_th : Option ℚ) :
    List ((Nat × Nat) × ℚ) → List Nat → DEState →
    Except Unit (DEState × List (Nat × Nat))
  | [], _, st => .ok (st, [])
  | (pair, score) :: rest, merged_clusters, st =>
    match qge score score_th with
    | .error e => .error e
    | .ok true => .ok (st, [])
    | .ok false =>
      if pair.1 ∈ merged_clusters ∨ pair.2 ∈ merged_clusters then
        de_merge_walk score_th rest merged_clusters st
      else
        match merge_cluster_means_vars st.ca pair.2 pair.1 st.means_rd none with
        | .error e => .error e
        | .ok (rd₂, _) =>
          match merge_two_clusters st.ca pair.2 pair.1 st.means (some st.vars) (some st.present) with
          | .error e => .error e
          | .ok (ca₂, means₂, some vars₂, some present₂) =>
            match getKey st.cl_size pair.2, getKey st.cl_size pair.1 with
            | some ssz, some dsz =>
              match de_merge_walk score_th rest (pair.2 :: pair.1 :: merged_clusters)
                  ⟨ca₂, means₂, vars₂, present₂, rd₂,
                    eraseKey (setKey st.cl_size pair.1 (dsz + ssz)) pair.2⟩ with
              | .error e => .error e
              | .ok (st₂, log) => .ok (st₂, pair :: log)
            | _, _ => .error ()
          | .ok _ => .error ()

/-- The `while len(cluster_assignments.keys()) > 1` loop of
`merge_clusters_by_de` (lines 392-452), with fuel: each round recomputes the
k-nearest candidate pairs from the reduced-space means, canonicalizes them,
scores them through the external collaborator, sorts ascending, stops if the
minimal score already meets the threshold, and otherwise walks the sorted
list merging pairs. The accumulated log keeps one entry per round. -/
def de_loop (kernel : Kernel) (scorer : Scorer) (th : Thresholds)
    (score_th : Option ℚ) (k : Nat) :
    Nat → DEState → List (List (Nat × Nat)) → Res (DEState × List (List (Nat × Nat)))
  | 0, _, _ => .fuelOut
  | fuel + 1, st, log =>
    if st.ca.length ≤ 1 then .ok (st, log)
    else
      match get_k_nearest_clusters kernel st.means_rd k with
      | .error _ => .err
      | .ok (_, neighbor_pairs₀) =>
        if (order_pairs neighbor_pairs₀).isEmpty then .ok (st, log)
        else
          match (sortAscByScore (scorer (order_pairs neighbor_pairs₀) st.means st.vars
              st.present st.cl_size th)).head? with
          | none => .err
          | some (_, score₀) =>
            match qge score₀ score_th with
            | .error _ => .err
            | .ok true => .ok (st, log)
            | .ok false =>
              match de_merge_walk score_th (sortAscByScore (scorer (order_pairs neighbor_pairs₀)
                  st.means st.vars st.present st.cl_size th)) [] st with
              | .error _ => .err
              | .ok (st₂, roundLog) =>
                de_loop kernel scorer th score_th k fuel st₂ (log ++ [roundLog])

/-- Embedding of `merge_clusters_by_de` (lines 345-452): record the cluster
sizes, pop `score_thresh` and `low_thresh` out of the caller's thresholds
dict, and run the merge loop. Returns the final state, the thresholds dict as
the caller observes it afterwards, and the per-round merge logs. -/
def merge_clusters_by_de (kernel : Kernel) (scorer : Scorer) (fuel : Nat)
    (ca : Assignments) (cluster_means cluster_variances present_cluster_means cluster_means_rd : DF)
    (thresholds : Thresholds) (k : Nat) :
    Res (DEState × Thresholds × List (List (Nat × Nat))) :=
  match popKey thresholds "score_thresh" with
  | .error _ => .err
  | .ok (score_th, th₁) =>
    match popKey th₁ "low_thresh" with
    | .error _ => .err
    | .ok (_, th₂) =>
      match de_loop kernel scorer th₂ score_th k fuel
          ⟨ca, cluster_means, cluster_variances, present_cluster_means, cluster_means_rd,
            ca.map (fun kv => (kv.1, kv.2.length))⟩ [] with
      | .fuelOut => .fuelOut
      | .err => .err
      | .ok (st, log) => .ok (st, th₂, log)

/-- A concrete constant similarity kernel, used only to instantiate witnesses
and counterexamples. -/
def sampleKernel : Kernel := fun _ _ _ => some 1

/-- A concrete DE scorer assigning score 0 to every input pair, used only to
instantiate witnesses and counterexamples; it satisfies the scoring contract
of one row per input pair. -/
def sampleScorer : Scorer := fun pairs _ _ _ _ _ => pairs.map (fun p => (p, (0 : ℚ)))

/-- Concrete three-cluster fixture: assignments. -/
def sampleCA : Assignments := [(1, [10]), (2, [20]), (3, [30])]

/-- Concrete fixture: one-feature normalized-space means. -/
def sampleMeans : DF := ⟨1, [(1, [some 0]), (2, [some 2]), (3, [some 4])]⟩

/-- Concrete fixture: a two-feature variance table, deliberately mismatched
with the one-feature means table. -/
def sampleVars : DF := ⟨2, [(1, [some 1, some 1]), (2, [some 1, some 1]), (3, [some 1, some 1])]⟩

/-- Concrete fixture: present-means table. -/
def samplePresent : DF := ⟨1, [(1, [some 0]), (2, [some 1]), (3, [some 0])]⟩

/-- Concrete fixture: reduced-space means. -/
def sampleRd : DF := ⟨1, [(1, [some 0]), (2, [some 2]), (3, [some 4])]⟩

/-- Concrete fixture: thresholds dict. -/
def sampleTh : Thresholds := [("score_thresh", some 100), ("low_thresh", some 1)]

/-- Well-formedness of a candidate-pair list: no duplicates, no self-pairs,
and each unordered relationship appears at most once. -/
def PairsOk (pairs : List (Nat × Nat)) : Prop :=
  pairs.Nodup ∧ ∀ p ∈ pairs, p.1 ≠ p.2 ∧ (p.2, p.1) ∉ pairs

theorem getKey_setKey_self {κ β : Type} [DecidableEq κ] (l : List (κ × β)) (k : κ) (v : β) :
    getKey (setKey l k v) k = some v := by
  induction l with
  | nil => simp [setKey, getKey]
  | cons hd tl ih =>
    obtain ⟨k₂, v₂⟩ := hd
    by_cases h : k₂ = k
    · simp [setKey, h, getKey]
    · simp [setKey, h, getKey, ih]

theorem getKey_setKey_ne {κ β : Type} [DecidableEq κ] (l : List (κ × β)) (k k₂ : κ) (v : β)
    (h : k₂ ≠ k) : getKey (setKey l k v) k₂ = getKey l k₂ := by
  have hne : ¬(k = k₂) := h.symm
  induction l with
  | nil => simp [setKey, getKey, hne]
  | cons hd tl ih =>
    obtain ⟨k₃, v₃⟩ := hd
    by_cases hk : k₃ = k
    · subst hk
      simp [setKey, getKey, hne]
    · simp [setKey, hk, getKey, ih]

theorem getKey_eraseKey_ne {κ β : Type} [DecidableEq κ] (l : List (κ × β)) (k k₂ : κ)
    (h : k₂ ≠ k) : getKey (eraseKey l k) k₂ = getKey l k₂ := by
  have hne : ¬(k = k₂) := h.symm
  induction l with
  | nil => simp [eraseKey]
  | cons hd tl ih =>
    obtain ⟨k₃, v₃⟩ := hd
    by_cases hk : k₃ = k
    · subst hk
      simp [eraseKey, getKey, hne]
    · simp [eraseKey, hk, getKey, ih]

theorem getKey_eraseKey_self {κ β : Type} [DecidableEq κ] (l : List (κ × β)) (k : κ)
    (h : (l.map Prod.fst).Nodup) : getKey (eraseKey l k) k = none := by
  induction l with
  | nil => simp [eraseKey, getKey]
  | cons hd tl ih =>
    obtain ⟨k₂, v₂⟩ := hd
    simp only [List.map_cons, List.nodup_cons] at h
    by_cases hk : k₂ = k
    · subst hk
      simp only [eraseKey, if_pos rfl]
      cases hg : getKey tl k₂ with
      | none => exact hg
      | some w =>
        exfalso
        apply h.1
        clear ih h
        induction tl with
        | nil => simp [getKey] at hg
        | cons hd₂ tl₂ ih₂ =>
          obtain ⟨k₃, v₃⟩ := hd₂
          simp only [getKey] at hg
          by_cases hk₃ : k₃ = k₂
          · simp [hk₃]
          · simp only [if_neg hk₃] at hg
            simp [ih₂ hg]
    · simp [eraseKey, hk, getKey, ih h.2]

theorem mapFst_setKey {κ β : Type} [DecidableEq κ] (l : List (κ × β)) (k : κ) (v w : β)
    (h : getKey l k = some w) : (setKey l k v).map Prod.fst = l.map Prod.fst := by
  induction l with
  | nil => simp [getKey] at h
  | cons hd tl ih =>
    obtain ⟨k₂, v₂⟩ := hd
    simp only [getKey] at h
    by_cases hk : k₂ = k
    · subst hk
      simp [setKey]
    · simp only [if_neg hk] at h
      simp [setKey, hk, ih h]

theorem length_setKey {κ β : Type} [DecidableEq κ] (l : List (κ × β)) (k : κ) (v w : β)
    (h : getKey l k = some w) : (setKey l k v).length = l.length := by
  have := mapFst_setKey l k v w h
  have h₁ : ((setKey l k v).map Prod.fst).length = (l.map Prod.fst).length := by rw [this]
  simpa using h₁

theorem length_eraseKey {κ β : Type} [DecidableEq κ] (l : List (κ × β)) (k : κ) (w : β)
    (h : getKey l k = some w) : l.length = (eraseKey l k).length + 1 := by
  induction l with
  | nil => simp [getKey] at h
  | cons hd tl ih =>
    obtain ⟨k₂, v₂⟩ := hd
    simp only [getKey] at h
    by_cases hk : k₂ = k
    · simp [eraseKey, hk]
    · simp only [if_neg hk] at h
      simp [eraseKey, hk, ih h]


theorem seriesZip_some (f : ℚ → ℚ → ℚ) (a b : List ℚ) (h : a.length = b.length) :
    seriesZip f (a.map some) (b.map some) = (List.zipWith f a b).map some := by
  unfold seriesZip
  have ha : (a.map some).length = a.length := by simp
  have hb : (b.map some).length = b.length := by simp
  rw [ha, hb, h, max_self, Nat.sub_self, List.replicate_zero, List.append_nil, List.append_nil]
  induction a generalizing b with
  | nil => cases b <;> simp
  | cons x xs ih =>
    cases b with
    | nil => simp at h
    | cons y ys =>
      simp only [List.length_cons, Nat.succ_inj] at h
      simp [ih ys h]

theorem seriesScale_some (c : ℚ) (a : List ℚ) :
    seriesScale c (a.map some) = (a.map (fun x => c * x)).map some := by
  simp [seriesScale, List.map_map, Function.comp_def]

theorem seriesSq_some (a : List ℚ) :
    seriesSq (a.map some) = (a.map (fun x => x ^ 2)).map some := by
  simp [seriesSq, List.map_map, Function.comp_def]

theorem seriesDivScalar_some (a : List ℚ) (c : ℚ) (hc : c ≠ 0) :
    seriesDivScalar (a.map some) c = (a.map (fun x => x / c)).map some := by
  simp [seriesDivScalar, hc, List.map_map, Function.comp_def]


theorem alignToCols_self (r : Row) : alignToCols r.length r = r := by
  induction r with
  | nil => rfl
  | cons v rest ih => simp [alignToCols, ih]


theorem mean_comb_eval (n₁ n₂ : ℚ) (q₁ q₂ : List ℚ) (h : q₁.length = q₂.length)
    (hden : n₁ + n₂ ≠ 0) :
    seriesDivScalar (seriesAdd (seriesScale n₁ (q₁.map some)) (seriesScale n₂ (q₂.map some)))
      (n₁ + n₂) = (List.zipWith (fun a b => specCombinedMean n₁ n₂ a b) q₁ q₂).map some := by
  rw [seriesScale_some, seriesScale_some, seriesAdd,
    seriesZip_some _ _ _ (by simpa using h), seriesDivScalar_some _ _ hden]
  congr 1
  induction q₁ generalizing q₂ with
  | nil => cases q₂ <;> simp
  | cons a as ih =>
    cases q₂ with
    | nil => simp at h
    | cons b bs =>
      simp only [List.length_cons, Nat.succ_inj] at h
      simp only [List.zipWith_cons_cons, List.map_cons, ih bs h, List.cons.injEq, and_true]
      simp only [specCombinedMean]
      ring

theorem zip4_var_list (n₁ n₂ : ℚ) (q₁ q₂ w₁ w₂ : List ℚ)
    (h₂ : q₂.length = q₁.length) (h₃ : w₁.length = q₁.length) (h₄ : w₂.length = q₁.length) :
    (List.zipWith (fun x y => x + y)
      (List.zipWith (fun x y => x + y)
        (List.zipWith (fun x y => x + y)
          (w₁.map (fun x => (n₁ - 1) * x))
          (((List.zipWith (fun a b => a - b) q₁
              (List.zipWith (fun a b => specCombinedMean n₁ n₂ a b) q₁ q₂)).map
            (fun x => x ^ 2)).map (fun x => n₁ * x)))
        (w₂.map (fun x => (n₂ - 1) * x)))
      (((List.zipWith (fun a b => a - b) q₂
          (List.zipWith (fun a b => specCombinedMean n₁ n₂ a b) q₁ q₂)).map
        (fun x => x ^ 2)).map (fun x => n₁ * x))).map (fun x => 1 / (n₁ + n₂ - 1) * x)
    = zip4With (fun m₁ m₂ v₁ v₂ => specPooledVar n₁ n₂ m₁ m₂ v₁ v₂) q₁ q₂ w₁ w₂ := by
  induction q₁ generalizing q₂ w₁ w₂ with
  | nil =>
    have hq : q₂ = [] := List.length_eq_zero.mp h₂
    have hw₁ : w₁ = [] := List.length_eq_zero.mp h₃
    have hw₂ : w₂ = [] := List.length_eq_zero.mp h₄
    subst hq hw₁ hw₂
    rfl
  | cons a as ih =>
    cases q₂ with
    | nil => simp at h₂
    | cons b bs =>
      cases w₁ with
      | nil => simp at h₃
      | cons v₁ vs₁ =>
        cases w₂ with
        | nil => simp at h₄
        | cons v₂ vs₂ =>
          simp only [List.length_cons, Nat.succ_inj] at h₂ h₃ h₄
          simp only [List.zipWith_cons_cons, List.map_cons, zip4With, List.cons.injEq]
          constructor
          · simp only [specPooledVar]
            ring
          · exact ih bs vs₁ vs₂ h₂ h₃ h₄

theorem zip4With_length (f : ℚ → ℚ → ℚ → ℚ → ℚ) (q₁ q₂ w₁ w₂ : List ℚ)
    (h₂ : q₂.length = q₁.length) (h₃ : w₁.length = q₁.length) (h₄ : w₂.length = q₁.length) :
    (zip4With f q₁ q₂ w₁ w₂).length = q₁.length := by
  induction q₁ generalizing q₂ w₁ w₂ with
  | nil =>
    have hq : q₂ = [] := List.length_eq_zero.mp h₂
    have hw₁ : w₁ = [] := List.length_eq_zero.mp h₃
    have hw₂ : w₂ = [] := List.length_eq_zero.mp h₄
    subst hq hw₁ hw₂
    rfl
  | cons a as ih =>
    cases q₂ with
    | nil => simp at h₂
    | cons b bs =>
      cases w₁ with
      | nil => simp at h₃
      | cons v₁ vs₁ =>
        cases w₂ with
        | nil => simp at h₄
        | cons v₂ vs₂ =>
          simp only [List.length_cons, Nat.succ_inj] at h₂ h₃ h₄
          simp [zip4With, ih bs vs₁ vs₂ h₂ h₃ h₄]

theorem var_comb_eval (n₁ n₂ : ℚ) (q₁ q₂ w₁ w₂ mcl : List ℚ)
    (hm : mcl = List.zipWith (fun a b => specCombinedMean n₁ n₂ a b) q₁ q₂)
    (h₂ : q₂.length = q₁.length) (h₃ : w₁.length = q₁.length) (h₄ : w₂.length = q₁.length) :
    seriesScale (1 / (n₁ + n₂ - 1))
      (seriesAdd
        (seriesAdd
          (seriesAdd (seriesScale (n₁ - 1) (w₁.map some))
            (seriesScale n₁ (seriesSq (seriesSub (q₁.map some) (mcl.map some)))))
          (seriesScale (n₂ - 1) (w₂.map some)))
        (seriesScale n₁ (seriesSq (seriesSub (q₂.map some) (mcl.map some)))))
    = (zip4With (fun m₁ m₂ v₁ v₂ => specPooledVar n₁ n₂ m₁ m₂ v₁ v₂) q₁ q₂ w₁ w₂).map some := by
  have hmcl : mcl.length = q₁.length := by
    rw [hm, List.length_zipWith, h₂, Nat.min_self]
  have hsub₁ : q₁.length = mcl.length := hmcl.symm
  have hsub₂ : q₂.length = mcl.length := h₂.trans hmcl.symm
  simp only [seriesSub, seriesAdd]
  rw [seriesZip_some _ _ _ hsub₁, seriesZip_some _ _ _ hsub₂,
    seriesSq_some, seriesSq_some, seriesScale_some, seriesScale_some, seriesScale_some,
    seriesScale_some]
  have len₁ : (w₁.map (fun x => (n₁ - 1) * x)).length =
      (((List.zipWith (fun a b => a - b) q₁ mcl).map (fun x => x ^ 2)).map
        (fun x => n₁ * x)).length := by
    simp [List.length_zipWith, h₃, hmcl]
  rw [seriesZip_some _ _ _ len₁]
  have len₂ : (List.zipWith (fun x y => x + y) (w₁.map (fun x => (n₁ - 1) * x))
      (((List.zipWith (fun a b => a - b) q₁ mcl).map (fun x => x ^ 2)).map
        (fun x => n₁ * x))).length = (w₂.map (fun x => (n₂ - 1) * x)).length := by
    simp [List.length_zipWith, h₃, h₄, hmcl]
  rw [seriesZip_some _ _ _ len₂]
  have len₃ : (List.zipWith (fun x y => x + y)
      (List.zipWith (fun x y => x + y) (w₁.map (fun x => (n₁ - 1) * x))
        (((List.zipWith (fun a b => a - b) q₁ mcl).map (fun x => x ^ 2)).map
          (fun x => n₁ * x)))
      (w₂.map (fun x => (n₂ - 1) * x))).length =
      (((List.zipWith (fun a b => a - b) q₂ mcl).map (fun x => x ^ 2)).map
        (fun x => n₁ * x)).length := by
    simp [List.length_zipWith, h₂, h₃, h₄, hmcl]
  rw [seriesZip_some _ _ _ len₃, seriesScale_some]
  subst hm
  congr 1
  exact zip4_var_list n₁ n₂ q₁ q₂ w₁ w₂ h₂ h₃ h₄

theorem sizeSum_eraseKey (l : Assignments) (k : Nat) (w : List Nat)
    (h : getKey l k = some w) : sizeSum l = sizeSum (eraseKey l k) + w.length := by
  induction l with
  | nil => simp [getKey] at h
  | cons hd tl ih =>
    obtain ⟨k₂, v₂⟩ := hd
    simp only [getKey] at h
    by_cases hk : k₂ = k
    · simp only [if_pos hk] at h
      cases h
      simp [eraseKey, hk, sizeSum]
      omega
    · simp only [if_neg hk] at h
      simp only [eraseKey, if_neg hk, sizeSum, List.map_cons, List.sum_cons] at ih ⊢
      have := ih h
      omega

theorem sizeSum_setKey (l : Assignments) (k : Nat) (v w : List Nat)
    (h : getKey l k = some w) : sizeSum (setKey l k v) + w.length = sizeSum l + v.length := by
  induction l with
  | nil => simp [getKey] at h
  | cons hd tl ih =>
    obtain ⟨k₂, v₂⟩ := hd
    simp only [getKey] at h
    by_cases hk : k₂ = k
    · simp only [if_pos hk] at h
      cases h
      simp [setKey, hk, sizeSum]
      omega
    · simp only [if_neg hk] at h
      simp only [setKey, if_neg hk, sizeSum, List.map_cons, List.sum_cons] at ih ⊢
      have := ih h
      omega

/-- C1: merging source into destination with `merge_two_clusters` removes the
source label from the assignments and from every statistics table, makes the
destination members the previous destination members followed by the previous
source members (conserving the total observation count), and sets the
destination mean row (and present-mean row) to the size-weighted average
`(mean_source * n_source + mean_dest * n_dest) / (n_source + n_dest)` of the
two previous rows. -/
theorem merge_two_clusters_spec
    (ca : Assignments) (src dst : Nat) (means vars present : DF)
    (sArr dArr : List Nat) (q₁ q₂ w₁ w₂ p₁ p₂ : List ℚ)
    (hne : src ≠ dst)
    (hca : (ca.map Prod.fst).Nodup)
    (hmk : (means.rows.map Prod.fst).Nodup)
    (hvk : (vars.rows.map Prod.fst).Nodup)
    (hpk : (present.rows.map Prod.fst).Nodup)
    (hs : getKey ca src = some sArr) (hd : getKey ca dst = some dArr)
    (hs1 : 1 ≤ sArr.length) (hd1 : 1 ≤ dArr.length)
    (hm₁ : means.locGet src = some (q₁.map some)) (hm₂ : means.locGet dst = some (q₂.map some))
    (hv₁ : vars.locGet src = some (w₁.map some)) (hv₂ : vars.locGet dst = some (w₂.map some))
    (hp₁ : present.locGet src = some (p₁.map some)) (hp₂ : present.locGet dst = some (p₂.map some))
    (hlq₁ : q₁.length = means.cols) (hlq₂ : q₂.length = means.cols)
    (hlw₁ : w₁.length = q₁.length) (hlw₂ : w₂.length = q₁.length)
    (hlp₁ : p₁.length = present.cols) (hlp₂ : p₂.length = present.cols) :
    ∃ ca₂ means₂ vars₂ present₂,
      merge_two_clusters ca src dst means (some vars) (some present) =
        Except.ok (ca₂, means₂, some vars₂, some present₂) ∧
      getKey ca₂ src = none ∧
      means₂.locGet src = none ∧ vars₂.locGet src = none ∧ present₂.locGet src = none ∧
      getKey ca₂ dst = some (dArr ++ sArr) ∧
      sizeSum ca₂ = sizeSum ca ∧
      means₂.locGet dst = some ((List.zipWith
        (fun a b => specCombinedMean (sArr.length : ℚ) (dArr.length : ℚ) a b) q₁ q₂).map some) ∧
      present₂.locGet dst = some ((List.zipWith
        (fun a b => specCombinedMean (sArr.length : ℚ) (dArr.length : ℚ) a b) p₁ p₂).map some) := by
  have hn₁ : (1 : ℚ) ≤ (sArr.length : ℚ) := by exact_mod_cast hs1
  have hn₂ : (1 : ℚ) ≤ (dArr.length : ℚ) := by exact_mod_cast hd1
  have hden : ((sArr.length : ℚ) + (dArr.length : ℚ)) ≠ 0 := by linarith
  have hg : ¬((sArr.length : ℚ) + (dArr.length : ℚ) - 1 = 0) := by
    intro h
    linarith
  have hq : q₁.length = q₂.length := hlq₁.trans hlq₂.symm
  have hp : p₁.length = p₂.length := hlp₁.trans hlp₂.symm
  have heval : merge_two_clusters ca src dst means (some vars) (some present) =
      Except.ok (eraseKey (setKey ca dst (dArr ++ sArr)) src,
        (means.locSet dst ((List.zipWith
          (fun a b => specCombinedMean (sArr.length : ℚ) (dArr.length : ℚ) a b) q₁ q₂).map some)).drop src,
        some ((vars.locSet dst ((zip4With
          (fun m₁ m₂ v₁ v₂ => specPooledVar (sArr.length : ℚ) (dArr.length : ℚ) m₁ m₂ v₁ v₂)
          q₁ q₂ w₁ w₂).map some)).drop src),
        some ((present.locSet dst ((List.zipWith
          (fun a b => specCombinedMean (sArr.length : ℚ) (dArr.length : ℚ) a b) p₁ p₂).map some)).drop src)) := by
    simp only [merge_two_clusters, merge_cluster_means_vars, merge_assignments,
      hs, hd, hm₁, hm₂, hv₁, hv₂, hp₁, hp₂, if_neg hg]
    rw [mean_comb_eval _ _ q₁ q₂ hq hden, mean_comb_eval _ _ p₁ p₂ hp hden,
      var_comb_eval (sArr.length : ℚ) (dArr.length : ℚ) q₁ q₂ w₁ w₂ _ rfl
        hq.symm hlw₁ hlw₂]
  refine ⟨_, _, _, _, heval, ?_, ?_, ?_, ?_, ?_, ?_, ?_, ?_⟩
  · exact getKey_eraseKey_self _ src (by rw [mapFst_setKey ca dst _ dArr hd]; exact hca)
  · simp only [DF.locGet, DF.drop, DF.locSet]
    exact getKey_eraseKey_self _ src
      (by rw [mapFst_setKey means.rows dst _ _ hm₂]; exact hmk)
  · simp only [DF.locGet, DF.drop, DF.locSet]
    exact getKey_eraseKey_self _ src
      (by rw [mapFst_setKey vars.rows dst _ _ hv₂]; exact hvk)
  · simp only [DF.locGet, DF.drop, DF.locSet]
    exact getKey_eraseKey_self _ src
      (by rw [mapFst_setKey present.rows dst _ _ hp₂]; exact hpk)
  · rw [getKey_eraseKey_ne _ src dst hne.symm, getKey_setKey_self]
  · have h₁ : getKey (setKey ca dst (dArr ++ sArr)) src = some sArr := by
      rw [getKey_setKey_ne ca dst src _ hne]
      exact hs
    have h₂ := sizeSum_eraseKey _ src sArr h₁
    have h₃ := sizeSum_setKey ca dst (dArr ++ sArr) dArr hd
    simp only [List.length_append] at h₃
    omega
  · simp only [DF.locGet, DF.drop, DF.locSet]
    rw [getKey_eraseKey_ne _ src dst hne.symm, getKey_setKey_self]
    have hXlen : ((List.zipWith
        (fun a b => specCombinedMean (sArr.length : ℚ) (dArr.length : ℚ) a b) q₁ q₂).map some).length
        = means.cols := by
      simp [List.length_zipWith, hlq₁, hlq₂]
    rw [← hXlen, alignToCols_self]
  · simp only [DF.locGet, DF.drop, DF.locSet]
    rw [getKey_eraseKey_ne _ src dst hne.symm, getKey_setKey_self]
    have hXlen : ((List.zipWith
        (fun a b => specCombinedMean (sArr.length : ℚ) (dArr.length : ℚ) a b) p₁ p₂).map some).length
        = present.cols := by
      simp [List.length_zipWith, hlp₁, hlp₂]
    rw [← hXlen, alignToCols_self]

/-- Witness for C1 at a concrete input: merge cluster 1 (one member) into
cluster 2 (two members). -/
theorem merge_two_clusters_spec_witness :
    ∃ ca₂ means₂ vars₂ present₂,
      merge_two_clusters [(1, [10]), (2, [20, 21])] 1 2 ⟨1, [(1, [some 0]), (2, [some 3])]⟩
          (some ⟨1, [(1, [some 2]), (2, [some 5])]⟩)
          (some ⟨1, [(1, [some 1]), (2, [some 0])]⟩) =
        Except.ok (ca₂, means₂, some vars₂, some present₂) ∧
      getKey ca₂ 1 = none ∧
      means₂.locGet 1 = none ∧ vars₂.locGet 1 = none ∧ present₂.locGet 1 = none ∧
      getKey ca₂ 2 = some ([20, 21] ++ [10]) ∧
      sizeSum ca₂ = sizeSum [(1, [10]), (2, [20, 21])] ∧
      means₂.locGet 2 = some ((List.zipWith
        (fun a b => specCombinedMean (([10] : List Nat).length : ℚ)
          (([20, 21] : List Nat).length : ℚ) a b) [0] [3]).map some) ∧
      present₂.locGet 2 = some ((List.zipWith
        (fun a b => specCombinedMean (([10] : List Nat).length : ℚ)
          (([20, 21] : List Nat).length : ℚ) a b) [1] [0]).map some) :=
  merge_two_clusters_spec [(1, [10]), (2, [20, 21])] 1 2
    ⟨1, [(1, [some 0]), (2, [some 3])]⟩ ⟨1, [(1, [some 2]), (2, [some 5])]⟩
    ⟨1, [(1, [some 1]), (2, [some 0])]⟩ [10] [20, 21] [0] [3] [2] [5] [1] [0]
    (by decide) (by decide) (by decide) (by decide) (by decide)
    (by decide) (by decide) (by decide) (by decide)
    rfl rfl rfl rfl rfl rfl
    (by decide) (by decide) (by decide) (by decide) (by decide) (by decide)

/-- C2: with a variance table given, `merge_cluster_means_vars` sets the
destination variance row to
`[(n_src-1)*var_src + n_src*(mean_src-mean')^2 + (n_dst-1)*var_dst
  + n_src*(mean_dst-mean')^2] / (n_src+n_dst-1)`
with `mean'` the size-weighted combined mean — the weight of BOTH mean-shift
correction terms is the source size, matching the code exactly. -/
theorem merge_cluster_means_vars_pooled
    (ca : Assignments) (src dst : Nat) (means vars : DF)
    (sArr dArr : List Nat) (q₁ q₂ w₁ w₂ : List ℚ)
    (hne : src ≠ dst)
    (hs : getKey ca src = some sArr) (hd : getKey ca dst = some dArr)
    (hs1 : 1 ≤ sArr.length) (hd1 : 1 ≤ dArr.length)
    (hm₁ : means.locGet src = some (q₁.map some)) (hm₂ : means.locGet dst = some (q₂.map some))
    (hv₁ : vars.locGet src = some (w₁.map some)) (hv₂ : vars.locGet dst = some (w₂.map some))
    (hq₂ : q₂.length = q₁.length) (hw₁ : w₁.length = q₁.length) (hw₂ : w₂.length = q₁.length)
    (hcols : q₁.length = vars.cols) :
    ∃ means₂ vars₂,
      merge_cluster_means_vars ca src dst means (some vars) = Except.ok (means₂, some vars₂) ∧
      vars₂.locGet dst = some ((zip4With
        (fun m₁ m₂ v₁ v₂ => specPooledVar (sArr.length : ℚ) (dArr.length : ℚ) m₁ m₂ v₁ v₂)
        q₁ q₂ w₁ w₂).map some) := by
  have hn₁ : (1 : ℚ) ≤ (sArr.length : ℚ) := by exact_mod_cast hs1
  have hn₂ : (1 : ℚ) ≤ (dArr.length : ℚ) := by exact_mod_cast hd1
  have hden : ((sArr.length : ℚ) + (dArr.length : ℚ)) ≠ 0 := by linarith
  have hg : ¬((sArr.length : ℚ) + (dArr.length : ℚ) - 1 = 0) := by
    intro h
    linarith
  have hq : q₁.length = q₂.length := hq₂.symm
  have heval : merge_cluster_means_vars ca src dst means (some vars) =
      Except.ok ((means.locSet dst ((List.zipWith
          (fun a b => specCombinedMean (sArr.length : ℚ) (dArr.length : ℚ) a b) q₁ q₂).map some)).drop src,
        some ((vars.locSet dst ((zip4With
          (fun m₁ m₂ v₁ v₂ => specPooledVar (sArr.length : ℚ) (dArr.length : ℚ) m₁ m₂ v₁ v₂)
          q₁ q₂ w₁ w₂).map some)).drop src)) := by
    simp only [merge_cluster_means_vars, hs, hd, hm₁, hm₂, hv₁, hv₂, if_neg hg]
    rw [mean_comb_eval _ _ q₁ q₂ hq hden,
      var_comb_eval (sArr.length : ℚ) (dArr.length : ℚ) q₁ q₂ w₁ w₂ _ rfl hq₂ hw₁ hw₂]
  refine ⟨_, _, heval, ?_⟩
  simp only [DF.locGet, DF.drop, DF.locSet]
  rw [getKey_eraseKey_ne _ src dst hne.symm, getKey_setKey_self]
  have hXlen : ((zip4With
      (fun m₁ m₂ v₁ v₂ => specPooledVar (sArr.length : ℚ) (dArr.length : ℚ) m₁ m₂ v₁ v₂)
      q₁ q₂ w₁ w₂).map some).length = vars.cols := by
    simp only [List.length_map, zip4With_length _ q₁ q₂ w₁ w₂ hq₂ hw₁ hw₂]
    exact hcols
  rw [← hXlen, alignToCols_self]

/-- Witness for C2 at a concrete input. -/
theorem merge_cluster_means_vars_pooled_witness :
    ∃ means₂ vars₂,
      merge_cluster_means_vars [(1, [10]), (2, [20, 21])] 1 2
          ⟨1, [(1, [some 0]), (2, [some 3])]⟩ (some ⟨1, [(1, [some 2]), (2, [some 5])]⟩) =
        Except.ok (means₂, some vars₂) ∧
      vars₂.locGet 2 = some ((zip4With
        (fun m₁ m₂ v₁ v₂ => specPooledVar (([10] : List Nat).length : ℚ)
          (([20, 21] : List Nat).length : ℚ) m₁ m₂ v₁ v₂) [0] [3] [2] [5]).map some) :=
  merge_cluster_means_vars_pooled [(1, [10]), (2, [20, 21])] 1 2
    ⟨1, [(1, [some 0]), (2, [some 3])]⟩ ⟨1, [(1, [some 2]), (2, [some 5])]⟩
    [10] [20, 21] [0] [3] [2] [5]
    (by decide) (by decide) (by decide) (by decide) (by decide)
    rfl rfl rfl rfl (by decide) (by decide) (by decide) (by decide)

/-- C3: whenever `merge_small_clusters` returns normally, no surviving
cluster has a size below the configured minimum (so a fortiori the claimed
postcondition, whose only permitted exception is a single remaining cluster,
holds). -/
theorem merge_small_clusters_postcondition
    (kernel : Kernel) (fuel : Nat) (means : DF) (ca : Assignments) (min_size : Nat)
    (means₂ : DF) (ca₂ : Assignments)
    (h : merge_small_clusters kernel fuel means ca min_size = Res.ok (means₂, ca₂)) :
    ∀ p ∈ ca₂, min_size ≤ p.2.length := by
  induction fuel generalizing means ca with
  | zero => simp [merge_small_clusters] at h
  | succ fuel ih =>
    rw [merge_small_clusters] at h
    by_cases hsmall : (find_small_clusters ca min_size).isEmpty
    · rw [if_pos hsmall] at h
      rw [List.isEmpty_iff] at hsmall
      simp only [find_small_clusters, List.map_eq_nil_iff, List.filter_eq_nil_iff] at hsmall
      cases h
      intro p hp
      exact Nat.le_of_not_lt (by simpa using hsmall p hp)
    · rw [if_neg hsmall] at h
      split at h
      · exact absurd h (by simp)
      · split at h
        · exact absurd h (by simp)
        · split at h
          · exact absurd h (by simp)
          · exact ih _ _ h

/-- Witness for C3 at a concrete input: a two-cluster partition whose small
cluster 1 is absorbed into cluster 2, after which every cluster has at least
2 members. -/
theorem merge_small_clusters_postcondition_witness :
    2 ≤ (((2 : Nat), ([1, 2, 0] : List Nat)).2).length :=
  merge_small_clusters_postcondition sampleKernel 3 ⟨1, [(1, [some 0]), (2, [some 1])]⟩
    [(1, [0]), (2, [1, 2])] 2 ⟨1, [(2, [some (2 / 3)])]⟩ [(2, [1, 2, 0])] (by
      norm_num [merge_small_clusters, find_small_clusters, calculate_similarity, lookupAll,
        find_most_similar, maxByVal, merge_two_clusters, merge_cluster_means_vars,
        merge_assignments, sampleKernel, DF.locGet, DF.locSet, DF.drop, getKey, setKey,
        eraseKey, seriesAdd, seriesSub, seriesZip, seriesScale, seriesSq, seriesDivScalar,
        alignToCols, List.dedup])
    (2, [1, 2, 0]) (by simp)

theorem merge_assignments_length (ca : Assignments) (src dst : Nat) (ca₂ : Assignments)
    (h : merge_assignments ca src dst = Except.ok ca₂) : ca.length = ca₂.length + 1 := by
  unfold merge_assignments at h
  split at h
  · rename_i sArr dArr hs hd
    simp only [Except.ok.injEq] at h
    subst h
    have hsrc : ∃ w, getKey (setKey ca dst (dArr ++ sArr)) src = some w := by
      by_cases he : src = dst
      · subst he
        exact ⟨_, getKey_setKey_self _ _ _⟩
      · exact ⟨sArr, by rw [getKey_setKey_ne ca dst src _ he]; exact hs⟩
    obtain ⟨w, hw⟩ := hsrc
    have h₁ := length_eraseKey _ src w hw
    have h₂ := length_setKey ca dst (dArr ++ sArr) dArr hd
    omega
  · simp at h

theorem merge_two_clusters_length (ca : Assignments) (src dst : Nat) (means : DF)
    (variances present_means : Option DF) (out : Assignments × DF × Option DF × Option DF)
    (h : merge_two_clusters ca src dst means variances present_means = Except.ok out) :
    ca.length = out.1.length + 1 := by
  unfold merge_two_clusters at h
  split at h
  · simp at h
  · split at h
    · split at h
      · simp at h
      · rename_i ca₂ hma
        simp only [Except.ok.injEq] at h
        subst h
        exact merge_assignments_length ca src dst ca₂ hma
    · split at h
      · simp at h
      · split at h
        · simp at h
        · rename_i ca₂ hma
          simp only [Except.ok.injEq] at h
          subst h
          exact merge_assignments_length ca src dst ca₂ hma

theorem merge_small_clusters_term (kernel : Kernel) (fuel : Nat) (means : DF)
    (ca : Assignments) (min_size : Nat) (h : ca.length < fuel) :
    merge_small_clusters kernel fuel means ca min_size ≠ Res.fuelOut := by
  induction fuel generalizing means ca with
  | zero => omega
  | succ fuel ih =>
    rw [merge_small_clusters]
    by_cases hsmall : (find_small_clusters ca min_size).isEmpty
    · simp [hsmall]
    · rw [if_neg hsmall]
      split
      · simp
      · split
        · simp
        · split
          · simp
          · rename_i hmerge
            apply ih
            have := merge_two_clusters_length _ _ _ _ _ _ _ hmerge
            simp only at this
            omega

theorem de_merge_walk_length (score_th : Option ℚ) (scores : List ((Nat × Nat) × ℚ))
    (merged : List Nat) (st st₂ : DEState) (log : List (Nat × Nat))
    (h : de_merge_walk score_th scores merged st = Except.ok (st₂, log)) :
    st₂.ca.length + log.length = st.ca.length := by
  induction scores generalizing merged st st₂ log with
  | nil =>
    simp only [de_merge_walk, Except.ok.injEq, Prod.mk.injEq] at h
    obtain ⟨h₁, h₂⟩ := h
    subst h₁
    subst h₂
    simp
  | cons hdp rest ih =>
    obtain ⟨pair, score⟩ := hdp
    rw [de_merge_walk] at h
    split at h
    · simp at h
    · simp only [Except.ok.injEq, Prod.mk.injEq] at h
      obtain ⟨h₁, h₂⟩ := h
      subst h₁
      subst h₂
      simp
    · split at h
      · exact ih _ _ _ _ h
      · split at h
        · simp at h
        · split at h
          · simp at h
          · split at h
            · split at h
              · simp at h
              · rename_i hwalk
                rename merge_two_clusters _ _ _ _ _ _ = Except.ok _ => hmerge
                simp only [Except.ok.injEq, Prod.mk.injEq] at h
                obtain ⟨h₁, h₂⟩ := h
                subst h₁
                subst h₂
                have hrec := ih _ _ _ _ hwalk
                have hm := merge_two_clusters_length _ _ _ _ _ _ _ hmerge
                simp only at hrec hm
                simp only [List.length_cons]
                omega
            · simp at h
          · simp at h

theorem de_merge_walk_progress (score_th : Option ℚ) (scores : List ((Nat × Nat) × ℚ))
    (x : Nat × Nat) (score₀ : ℚ) (st st₂ : DEState) (log : List (Nat × Nat))
    (hhead : scores.head? = some (x, score₀))
    (hq : qge score₀ score_th = Except.ok false)
    (h : de_merge_walk score_th scores [] st = Except.ok (st₂, log)) : log ≠ [] := by
  cases scores with
  | nil => simp at hhead
  | cons hd tl =>
    simp only [List.head?_cons, Option.some.injEq] at hhead
    subst hhead
    rw [de_merge_walk] at h
    split at h
    · rename_i heq
      rw [hq] at heq
      simp at heq
    · rename_i heq
      rw [hq] at heq
      simp at heq
    · rw [if_neg (by simp : ¬(x.1 ∈ ([] : List Nat) ∨ x.2 ∈ ([] : List Nat)))] at h
      split at h
      · simp at h
      · split at h
        · simp at h
        · split at h
          · split at h
            · simp at h
            · simp only [Except.ok.injEq, Prod.mk.injEq] at h
              obtain ⟨h₁, h₂⟩ := h
              subst h₂
              simp
          · simp at h
        · simp at h

theorem de_loop_term (kernel : Kernel) (scorer : Scorer) (th : Thresholds)
    (score_th : Option ℚ) (k : Nat) (fuel : Nat) (st : DEState)
    (log : List (List (Nat × Nat))) (h : st.ca.length < fuel) :
    de_loop kernel scorer th score_th k fuel st log ≠ Res.fuelOut := by
  induction fuel generalizing st log with
  | zero => omega
  | succ fuel ih =>
    rw [de_loop]
    by_cases h₁ : st.ca.length ≤ 1
    · simp [h₁]
    · rw [if_neg h₁]
      split
      · simp
      · rename_i w pairs₀ hknn
        by_cases h₂ : (order_pairs pairs₀).isEmpty
        · simp [h₂]
        · rw [if_neg h₂]
          split
          · simp
          · rename_i p₀ score₀ hhead
            split
            · simp
            · simp
            · rename_i hq
              split
              · simp
              · rename_i st₂ roundLog hwalk
                apply ih
                have hlen := de_merge_walk_length _ _ _ _ _ _ hwalk
                have hne := de_merge_walk_progress _ _ _ _ _ _ _ hhead hq hwalk
                have hpos : 0 < roundLog.length := List.length_pos.mpr hne
                omega

/-- C4: the whole merge process always terminates: with fuel exceeding the
initial cluster count, neither the Phase-1 `merge_small_clusters` loop nor the
Phase-2 `merge_clusters_by_de` loop can exhaust its fuel — every iteration of
Phase 1 and every merging round of Phase 2 strictly decreases the finite
cluster count, and every other branch stops the loop. -/
theorem merging_terminates :
    (∀ (kernel : Kernel) (fuel : Nat) (means : DF) (ca : Assignments) (min_size : Nat),
      ca.length < fuel →
      merge_small_clusters kernel fuel means ca min_size ≠ Res.fuelOut) ∧
    (∀ (kernel : Kernel) (scorer : Scorer) (fuel : Nat) (ca : Assignments)
      (means vars present rd : DF) (th : Thresholds) (k : Nat),
      ca.length < fuel →
      merge_clusters_by_de kernel scorer fuel ca means vars present rd th k ≠ Res.fuelOut) := by
  constructor
  · intro kernel fuel means ca min_size h
    exact merge_small_clusters_term kernel fuel means ca min_size h
  · intro kernel scorer fuel ca means vars present rd th k h
    unfold merge_clusters_by_de
    split
    · simp
    · split
      · simp
      · split
        · rename_i hloop
          exact absurd hloop (de_loop_term _ _ _ _ _ _ _ _ h)
        · simp
        · simp

/-- Witness for C4 at concrete inputs: a Phase-1 run and a Phase-2 run, each
with fuel above the cluster count, finish without exhausting fuel. -/
theorem merging_terminates_witness :
    merge_small_clusters sampleKernel 3 ⟨1, [(1, [some 0]), (2, [some 1])]⟩
        [(1, [0]), (2, [1, 2])] 2 ≠ Res.fuelOut ∧
    merge_clusters_by_de sampleKernel sampleScorer 4 sampleCA sampleMeans sampleVars
        samplePresent sampleRd sampleTh 1 ≠ Res.fuelOut :=
  ⟨merging_terminates.1 sampleKernel 3 ⟨1, [(1, [some 0]), (2, [some 1])]⟩
      [(1, [0]), (2, [1, 2])] 2 (by decide),
   merging_terminates.2 sampleKernel sampleScorer 4 sampleCA sampleMeans sampleVars
      samplePresent sampleRd sampleTh 1 (by decide)⟩

theorem calculate_similarity_diag (kernel : Kernel) (df : DF) (rows cols : List Nat)
    (sim : SimTable) (h : calculate_similarity kernel df rows cols = Except.ok sim) :
    ∀ e ∈ sim, e.1 = e.2.1 → e.2.2 = none := by
  unfold calculate_similarity at h
  split at h
  · simp at h
  · simp only [Except.ok.injEq] at h
    subst h
    intro e he heq
    simp only [List.mem_flatMap, List.mem_map] at he
    obtain ⟨r, hr, c, hc, rfl⟩ := he
    simp only at heq
    simp [heq]

theorem mem_insertDescByVal (x y : Nat × ℚ) (l : List (Nat × ℚ)) :
    y ∈ insertDescByVal x l ↔ y = x ∨ y ∈ l := by
  induction l with
  | nil => simp [insertDescByVal]
  | cons hd tl ih =>
    simp only [insertDescByVal]
    split
    · simp only [List.mem_cons, ih]
      tauto
    · simp [List.mem_cons]

theorem mem_sortDescByVal (l : List (Nat × ℚ)) (y : Nat × ℚ) :
    y ∈ sortDescByVal l ↔ y ∈ l := by
  induction l with
  | nil => simp [sortDescByVal]
  | cons hd tl ih =>
    show y ∈ insertDescByVal hd (sortDescByVal tl) ↔ _
    rw [mem_insertDescByVal]
    simp [ih]

theorem mem_insertAscByScore (x y : (Nat × Nat) × ℚ) (l : List ((Nat × Nat) × ℚ)) :
    y ∈ insertAscByScore x l ↔ y = x ∨ y ∈ l := by
  induction l with
  | nil => simp [insertAscByScore]
  | cons hd tl ih =>
    simp only [insertAscByScore]
    split
    · simp only [List.mem_cons, ih]
      tauto
    · simp [List.mem_cons]

theorem mem_sortAscByScore (l : List ((Nat × Nat) × ℚ)) (y : (Nat × Nat) × ℚ) :
    y ∈ sortAscByScore l ↔ y ∈ l := by
  induction l with
  | nil => simp [sortAscByScore]
  | cons hd tl ih =>
    show y ∈ insertAscByScore hd (sortAscByScore tl) ↔ _
    rw [mem_insertAscByScore]
    simp [ih]

theorem addPair_pairsOk (acc : List (Nat × Nat)) (c n : Nat) (hcn : c ≠ n)
    (h : PairsOk acc) : PairsOk (addPair acc c n) := by
  unfold addPair
  split
  · exact h
  · split
    · exact h
    · rename_i h₁ h₂
      obtain ⟨hnd, hp⟩ := h
      constructor
      · refine List.Nodup.append hnd (by simp) ?_
        intro a ha hb
        simp only [List.mem_singleton] at hb
        subst hb
        exact h₂ ha
      · intro p hpmem
        rcases List.mem_append.mp hpmem with hpa | hps
        · refine ⟨(hp p hpa).1, ?_⟩
          intro hswap
          rcases List.mem_append.mp hswap with hswa | hsws
          · exact (hp p hpa).2 hswa
          · simp only [List.mem_singleton, Prod.mk.injEq] at hsws
            apply h₁
            have hpe : p = (n, c) := by
              obtain ⟨a, b⟩ := p
              simp only at hsws
              simp [hsws.1, hsws.2]
            rw [← hpe]
            exact hpa
        · simp only [List.mem_singleton] at hps
          subst hps
          refine ⟨hcn, ?_⟩
          intro hswap
          rcases List.mem_append.mp hswap with hswa | hsws
          · exact h₁ hswa
          · simp only [List.mem_singleton, Prod.mk.injEq] at hsws
            exact hcn hsws.2

theorem knnTake_pairsOk (c : Nat) (k : Nat) (sorted : List (Nat × ℚ))
    (acc acc₂ : List (Nat × Nat)) (hs : ∀ p ∈ sorted, p.1 ≠ c) (hacc : PairsOk acc)
    (h : knnTake c k sorted acc = Except.ok acc₂) : PairsOk acc₂ := by
  induction k generalizing sorted acc with
  | zero =>
    simp only [knnTake, Except.ok.injEq] at h
    subst h
    exact hacc
  | succ k ih =>
    cases sorted with
    | nil => simp [knnTake] at h
    | cons hd tl =>
      obtain ⟨n, v⟩ := hd
      simp only [knnTake] at h
      refine ih tl _ (fun p hp => hs p (List.mem_cons_of_mem _ hp)) ?_ h
      refine addPair_pairsOk acc c n ?_ hacc
      intro he
      exact hs (n, v) (by simp) he.symm

theorem knnOuter_pairsOk (entries : List (Nat × Nat × ℚ)) (k : Nat) (labels : List Nat)
    (acc acc₂ : List (Nat × Nat)) (hE : ∀ e ∈ entries, e.1 ≠ e.2.1)
    (hacc : PairsOk acc) (h : knnOuter entries k labels acc = Except.ok acc₂) :
    PairsOk acc₂ := by
  induction labels generalizing acc with
  | nil =>
    simp only [knnOuter, Except.ok.injEq] at h
    subst h
    exact hacc
  | cons c cs ih =>
    simp only [knnOuter] at h
    split at h
    · simp at h
    · split at h
      · simp at h
      · rename_i acc₃ htake
        refine ih _ ?_ h
        refine knnTake_pairsOk c k _ acc acc₃ ?_ hacc htake
        intro p hp
        rw [mem_sortDescByVal] at hp
        simp only [List.mem_filterMap] at hp
        obtain ⟨e, he, hee⟩ := hp
        by_cases hc : e.2.1 = c
        · rw [if_pos hc] at hee
          simp only [Option.some.injEq] at hee
          have hne := hE e he
          rw [← hee]
          simpa [hc] using hne
        · rw [if_neg hc] at hee
          exact Option.noConfusion hee

theorem get_k_nearest_pairsOk (kernel : Kernel) (df : DF) (k : Nat) (w : Bool)
    (pairs : List (Nat × Nat))
    (h : get_k_nearest_clusters kernel df k = Except.ok (w, pairs)) : PairsOk pairs := by
  unfold get_k_nearest_clusters at h
  split at h
  · simp at h
  · rename_i sim hsim
    split at h
    · simp at h
    · rename_i pairs₂ houter
      simp only [Except.ok.injEq, Prod.mk.injEq] at h
      obtain ⟨hw, hp⟩ := h
      subst hp
      refine knnOuter_pairsOk _ _ _ [] _ ?_ ⟨List.nodup_nil, by simp⟩ houter
      intro e he
      simp only [List.mem_filterMap] at he
      obtain ⟨e₀, he₀, hee⟩ := he
      cases hv : e₀.2.2 with
      | none =>
        rw [hv] at hee
        exact Option.noConfusion hee
      | some v =>
        rw [hv] at hee
        simp only [Option.map_some', Option.some.injEq] at hee
        subst hee
        intro hdiag
        have := calculate_similarity_diag _ _ _ _ _ hsim e₀ he₀ hdiag
        rw [hv] at this
        simp at this

theorem order_pairs_lt (ps : List (Nat × Nat)) (h : ∀ p ∈ ps, p.1 ≠ p.2) :
    ∀ q ∈ order_pairs ps, q.1 < q.2 := by
  intro q hq
  simp only [order_pairs, List.mem_map] at hq
  obtain ⟨p, hp, rfl⟩ := hq
  have := h p hp
  by_cases hlt : p.1 < p.2
  · simp [hlt]
  · simp only [if_neg hlt]
    omega

theorem de_merge_walk_round (score_th : Option ℚ) (scores : List ((Nat × Nat) × ℚ))
    (merged : List Nat) (st st₂ : DEState) (log : List (Nat × Nat))
    (hp : ∀ r ∈ scores, r.1.1 < r.1.2)
    (h : de_merge_walk score_th scores merged st = Except.ok (st₂, log)) :
    (∀ p ∈ log, p.1 < p.2) ∧ (log.flatMap (fun p => [p.1, p.2])).Nodup ∧
      (∀ l ∈ log.flatMap (fun p => [p.1, p.2]), l ∉ merged) := by
  induction scores generalizing merged st st₂ log with
  | nil =>
    simp only [de_merge_walk, Except.ok.injEq, Prod.mk.injEq] at h
    obtain ⟨h₁, h₂⟩ := h
    subst h₂
    simp
  | cons hdp rest ih =>
    obtain ⟨pair, score⟩ := hdp
    rw [de_merge_walk] at h
    split at h
    · simp at h
    · simp only [Except.ok.injEq, Prod.mk.injEq] at h
      obtain ⟨h₁, h₂⟩ := h
      subst h₂
      simp
    · split at h
      · exact ih _ _ _ _ (fun r hr => hp r (List.mem_cons_of_mem _ hr)) h
      · rename_i hnmem
        split at h
        · simp at h
        · split at h
          · simp at h
          · split at h
            · split at h
              · simp at h
              · rename_i hwalk
                simp only [Except.ok.injEq, Prod.mk.injEq] at h
                obtain ⟨h₁, h₂⟩ := h
                subst h₁
                subst h₂
                obtain ⟨hlt, hnd, hmem⟩ :=
                  ih _ _ _ _ (fun r hr => hp r (List.mem_cons_of_mem _ hr)) hwalk
                have hpair := hp (pair, score) (by simp)
                simp only at hpair
                push_neg at hnmem
                refine ⟨?_, ?_, ?_⟩
                · intro p hp₂
                  rcases List.mem_cons.mp hp₂ with hpe | hpm
                  · subst hpe
                    exact hpair
                  · exact hlt p hpm
                · simp only [List.flatMap_cons, List.cons_append, List.nil_append,
                    List.nodup_cons]
                  refine ⟨?_, ?_, hnd⟩
                  · intro hcon
                    rcases List.mem_cons.mp hcon with he | hm
                    · omega
                    · exact hmem _ hm (by simp)
                  · intro hcon
                    exact hmem _ hcon (by simp)
                · intro l hl
                  simp only [List.flatMap_cons, List.cons_append, List.nil_append,
                    List.mem_cons] at hl
                  rcases hl with rfl | rfl | hm
                  · exact hnmem.1
                  · exact hnmem.2
                  · have := hmem _ hm
                    simp only [List.mem_cons, not_or] at this
                    exact this.2.2
            · simp at h
          · simp at h

theorem de_loop_rounds (kernel : Kernel) (scorer : Scorer) (th : Thresholds)
    (score_th : Option ℚ) (k : Nat)
    (hscorer : ∀ ps m v p cs t, ∀ r ∈ scorer ps m v p cs t, r.1 ∈ ps)
    (fuel : Nat) :
    ∀ (st : DEState) (log : List (List (Nat × Nat))) (st₂ : DEState)
      (logF : List (List (Nat × Nat))),
    de_loop kernel scorer th score_th k fuel st log = Res.ok (st₂, logF) →
    (∀ round ∈ log,
      (∀ p ∈ round, p.1 < p.2) ∧ (round.flatMap (fun p => [p.1, p.2])).Nodup) →
    ∀ round ∈ logF,
      (∀ p ∈ round, p.1 < p.2) ∧ (round.flatMap (fun p => [p.1, p.2])).Nodup := by
  induction fuel with
  | zero =>
    intro st log st₂ logF h _
    simp [de_loop] at h
  | succ fuel ih =>
    intro st log st₂ logF h hlog
    rw [de_loop] at h
    by_cases h₁ : st.ca.length ≤ 1
    · rw [if_pos h₁] at h
      simp only [Res.ok.injEq, Prod.mk.injEq] at h
      obtain ⟨h₂, h₃⟩ := h
      subst h₃
      exact hlog
    · rw [if_neg h₁] at h
      split at h
      · simp at h
      · rename_i w pairs₀ hknn
        by_cases h₂ : (order_pairs pairs₀).isEmpty
        · rw [if_pos h₂] at h
          simp only [Res.ok.injEq, Prod.mk.injEq] at h
          obtain ⟨h₃, h₄⟩ := h
          subst h₄
          exact hlog
        · rw [if_neg h₂] at h
          split at h
          · simp at h
          · split at h
            · simp at h
            · simp only [Res.ok.injEq, Prod.mk.injEq] at h
              obtain ⟨h₃, h₄⟩ := h
              subst h₄
              exact hlog
            · split at h
              · simp at h
              · rename_i st₃ roundLog hwalk
                refine ih _ _ _ _ h ?_
                intro round hr
                rcases List.mem_append.mp hr with hrl | hrs
                · exact hlog round hrl
                · simp only [List.mem_singleton] at hrs
                  subst hrs
                  have hpairs := get_k_nearest_pairsOk _ _ _ _ _ hknn
                  have hps : ∀ r ∈ sortAscByScore (scorer (order_pairs pairs₀) st.means
                      st.vars st.present st.cl_size th), r.1.1 < r.1.2 := by
                    intro r hr₂
                    rw [mem_sortAscByScore] at hr₂
                    have hmem := hscorer _ _ _ _ _ _ r hr₂
                    exact order_pairs_lt pairs₀ (fun p hpm => (hpairs.2 p hpm).1) r.1 hmem
                  have hround := de_merge_walk_round _ _ _ _ _ _ hps hwalk
                  exact ⟨hround.1, hround.2.1⟩

theorem sampleScorer_rows : ∀ (ps : List (Nat × Nat)) (m v p : DF)
    (cs : List (Nat × Nat)) (t : Thresholds), ∀ r ∈ sampleScorer ps m v p cs t, r.1 ∈ ps := by
  intro ps m v p cs t r hr
  simp only [sampleScorer, List.mem_map] at hr
  obtain ⟨q, hq, rfl⟩ := hr
  exact hq

set_option maxRecDepth 8000 in
set_option maxHeartbeats 1000000 in
theorem sample_run_eval :
    merge_clusters_by_de sampleKernel sampleScorer 3 sampleCA sampleMeans sampleVars
      samplePresent sampleRd sampleTh 1 =
    Res.ok (⟨[(1, [10, 20, 30])], ⟨1, [(1, [some 2])]⟩, ⟨2, [(1, [some (7 / 2), none])]⟩,
      ⟨1, [(1, [some (1 / 3)])]⟩, ⟨1, [(1, [some 2])]⟩, [(1, 3)]⟩, [], [[(1, 2)], [(1, 3)]]) := by
  norm_num [merge_clusters_by_de, popKey, de_loop, get_k_nearest_clusters, calculate_similarity,
    lookupAll, knnOuter, knnTake, addPair, sortDescByVal, insertDescByVal, order_pairs,
    sortAscByScore, insertAscByScore, qge, de_merge_walk, merge_two_clusters,
    merge_cluster_means_vars, merge_assignments, sampleKernel, sampleScorer, sampleCA,
    sampleMeans, sampleVars, samplePresent, sampleRd, sampleTh, DF.locGet, DF.locSet, DF.drop,
    getKey, setKey, eraseKey, alignToCols, seriesAdd, seriesSub, seriesZip, seriesScale,
    seriesSq, seriesDivScalar, List.dedup, List.filterMap_cons, List.isEmpty]

/-- C5: within any single round of `merge_clusters_by_de` every cluster label
participates in at most one executed merge, provided the DE scorer returns
rows only for its input pairs (the scoring contract): the per-round merge log
never repeats a label, so a three-way chain A->B->C cannot occur within one
round. -/
theorem de_round_single_participation (kernel : Kernel) (scorer : Scorer) (fuel : Nat)
    (ca : Assignments) (means vars present rd : DF) (th : Thresholds) (k : Nat)
    (st₂ : DEState) (thOut : Thresholds) (logF : List (List (Nat × Nat)))
    (hscorer : ∀ ps m v p cs t, ∀ r ∈ scorer ps m v p cs t, r.1 ∈ ps)
    (h : merge_clusters_by_de kernel scorer fuel ca means vars present rd th k =
      Res.ok (st₂, thOut, logF)) :
    ∀ round ∈ logF, (round.flatMap (fun p => [p.1, p.2])).Nodup := by
  unfold merge_clusters_by_de at h
  split at h
  · simp at h
  · split at h
    · simp at h
    · split at h
      · simp at h
      · simp at h
      · rename_i st₃ log₃ hloop
        simp only [Res.ok.injEq, Prod.mk.injEq] at h
        obtain ⟨h₁, h₂, h₃⟩ := h
        subst h₃
        intro round hr
        exact (de_loop_rounds _ _ _ _ _ hscorer _ _ _ _ _ hloop (by simp) round hr).2

/-- Witness for C5 at a concrete input: a two-round run whose rounds each
merge one pair of distinct labels. -/
theorem de_round_single_participation_witness :
    (([(1, 2)] : List (Nat × Nat)).flatMap (fun p => [p.1, p.2])).Nodup :=
  de_round_single_participation sampleKernel sampleScorer 3 sampleCA sampleMeans sampleVars
    samplePresent sampleRd sampleTh 1 _ _ _ sampleScorer_rows sample_run_eval
    [(1, 2)] (by simp)

/-- C10: every merge executed by `merge_clusters_by_de` keeps the smaller
label of the canonicalized pair as the surviving destination and absorbs the
larger label, provided the DE scorer returns rows only for its input pairs:
every logged (destination, source) merge satisfies destination < source, so a
Phase-2 merge never removes the smaller label of a pair. -/
theorem de_merge_dest_smaller (kernel : Kernel) (scorer : Scorer) (fuel : Nat)
    (ca : Assignments) (means vars present rd : DF) (th : Thresholds) (k : Nat)
    (st₂ : DEState) (thOut : Thresholds) (logF : List (List (Nat × Nat)))
    (hscorer : ∀ ps m v p cs t, ∀ r ∈ scorer ps m v p cs t, r.1 ∈ ps)
    (h : merge_clusters_by_de kernel scorer fuel ca means vars present rd th k =
      Res.ok (st₂, thOut, logF)) :
    ∀ round ∈ logF, ∀ p ∈ round, p.1 < p.2 := by
  unfold merge_clusters_by_de at h
  split at h
  · simp at h
  · split at h
    · simp at h
    · split at h
      · simp at h
      · simp at h
      · rename_i st₃ log₃ hloop
        simp only [Res.ok.injEq, Prod.mk.injEq] at h
        obtain ⟨h₁, h₂, h₃⟩ := h
        subst h₃
        intro round hr
        exact (de_loop_rounds _ _ _ _ _ hscorer _ _ _ _ _ hloop (by simp) round hr).1

/-- Witness for C10 at a concrete input: in both logged merges the surviving
destination label is smaller than the absorbed source label. -/
theorem de_merge_dest_smaller_witness :
    (((1 : Nat), (3 : Nat))).1 < (((1 : Nat), (3 : Nat))).2 :=
  de_merge_dest_smaller sampleKernel sampleScorer 3 sampleCA sampleMeans sampleVars
    samplePresent sampleRd sampleTh 1 _ _ _ sampleScorer_rows sample_run_eval
    [(1, 3)] (by simp) (1, 3) (by simp)

/-- Counterexample for C7: the statistics tables have mismatched feature
spaces (the means table has 1 column, the variance table 2), yet the merge
process never rejects anything: it runs to completion, removes and extends
cluster-assignment entries, and silently stores a missing value (NaN) in the
variance table. -/
theorem mismatched_tables_not_rejected :
    sampleMeans.cols ≠ sampleVars.cols ∧
    merge_clusters_by_de sampleKernel sampleScorer 3 sampleCA sampleMeans sampleVars
      samplePresent sampleRd sampleTh 1 =
    Res.ok (⟨[(1, [10, 20, 30])], ⟨1, [(1, [some 2])]⟩, ⟨2, [(1, [some (7 / 2), none])]⟩,
      ⟨1, [(1, [some (1 / 3)])]⟩, ⟨1, [(1, [some 2])]⟩, [(1, 3)]⟩, [], [[(1, 2)], [(1, 3)]]) :=
  ⟨by decide, sample_run_eval⟩

/-- C7 (amended): only LABEL-space mismatches fail fast: if the source or
destination label is missing from the assignments or from any statistics
table, `merge_two_clusters` raises KeyError and returns no updated partition,
so no cluster-assignment entry is added, removed, or extended. (Feature-space
mismatches are NOT detected — see the counterexample.) -/
theorem label_mismatch_fails_fast (ca : Assignments) (src dst : Nat) (means vdf pdf : DF)
    (h : getKey ca src = none ∨ getKey ca dst = none ∨ means.locGet src = none ∨
      means.locGet dst = none ∨ vdf.locGet src = none ∨ vdf.locGet dst = none ∨
      pdf.locGet src = none ∨ pdf.locGet dst = none) :
    merge_two_clusters ca src dst means (some vdf) (some pdf) = Except.error () := by
  cases hs : getKey ca src <;> cases hd : getKey ca dst <;>
    cases hm₁ : means.locGet src <;> cases hm₂ : means.locGet dst <;>
    cases hv₁ : vdf.locGet src <;> cases hv₂ : vdf.locGet dst <;>
    cases hp₁ : pdf.locGet src <;> cases hp₂ : pdf.locGet dst <;>
    simp_all [merge_two_clusters, merge_cluster_means_vars, merge_assignments] <;>
    (try (split <;> simp))

/-- Witness for the amended C7 at a concrete input: the destination label 2
is absent from the single-cluster partition, so the merge raises KeyError. -/
theorem label_mismatch_fails_fast_witness :
    merge_two_clusters [(1, [0])] 1 2 ⟨1, [(1, [some 1])]⟩ (some ⟨1, [(1, [some 1])]⟩)
      (some ⟨1, [(1, [some 1])]⟩) = Except.error () :=
  label_mismatch_fails_fast [(1, [0])] 1 2 ⟨1, [(1, [some 1])]⟩ ⟨1, [(1, [some 1])]⟩
    ⟨1, [(1, [some 1])]⟩ (Or.inr (Or.inl (by decide)))

/-- Counterexample for C8: with exactly two clusters and k = 2 (so k ≥ the
number of clusters), `get_k_nearest_clusters` raises IndexError instead of
returning a candidate list: after clamping to 2, each cluster has only one
possible neighbor, and the inner loop indexes past it. -/
theorem get_k_nearest_two_clusters_error :
    get_k_nearest_clusters sampleKernel ⟨1, [(1, [some 0]), (2, [some 10])]⟩ 2 =
      Except.error () := by
  norm_num [get_k_nearest_clusters, calculate_similarity, lookupAll, knnOuter, knnTake,
    addPair, sortDescByVal, insertDescByVal, sampleKernel, DF.locGet, getKey, List.dedup,
    List.filterMap_cons, List.isEmpty]

/-- C8 (amended): when k is at least the number of clusters,
`get_k_nearest_clusters` clamps k to 2 and sets the warning flag, and on
every NORMAL return each unordered neighbor relationship appears at most once
(no duplicates, no self-pairs, no swapped duplicates); however a normal
return is not guaranteed — with exactly two clusters the call raises instead
(see the counterexample). -/
theorem get_k_nearest_clamp (kernel : Kernel) (df : DF) (k : Nat) (w : Bool)
    (pairs : List (Nat × Nat)) (hk : df.rows.length ≤ k)
    (h : get_k_nearest_clusters kernel df k = Except.ok (w, pairs)) :
    w = true ∧ pairs.Nodup ∧ ∀ p ∈ pairs, p.1 ≠ p.2 ∧ (p.2, p.1) ∉ pairs := by
  have hOk := get_k_nearest_pairsOk kernel df k w pairs h
  refine ⟨?_, hOk.1, hOk.2⟩
  unfold get_k_nearest_clusters at h
  split at h
  · simp at h
  · split at h
    · simp at h
    · simp only [Except.ok.injEq, Prod.mk.injEq] at h
      obtain ⟨hw, _⟩ := h
      rw [← hw]
      simp [hk]

/-- Witness for the amended C8 at a concrete input: three clusters, k = 5;
the call warns (flag true) and returns a deduplicated candidate list. -/
theorem get_k_nearest_clamp_witness :
    (true = true) ∧ ([(1, 2), (1, 3), (2, 3)] : List (Nat × Nat)).Nodup ∧
      ∀ p ∈ ([(1, 2), (1, 3), (2, 3)] : List (Nat × Nat)),
        p.1 ≠ p.2 ∧ (p.2, p.1) ∉ ([(1, 2), (1, 3), (2, 3)] : List (Nat × Nat)) :=
  get_k_nearest_clamp sampleKernel sampleRd 5 true [(1, 2), (1, 3), (2, 3)] (by decide)
    (by norm_num [get_k_nearest_clusters, calculate_similarity, lookupAll, knnOuter, knnTake,
      addPair, sortDescByVal, insertDescByVal, sampleKernel, sampleRd, DF.locGet, getKey,
      List.dedup, List.filterMap_cons, List.isEmpty])

theorem mapFst_eraseKey_sublist {κ β : Type} [DecidableEq κ] (l : List (κ × β)) (k : κ) :
    ((eraseKey l k).map Prod.fst).Sublist (l.map Prod.fst) := by
  induction l with
  | nil => simp [eraseKey]
  | cons hd tl ih =>
    obtain ⟨k₂, v₂⟩ := hd
    by_cases hk : k₂ = k
    · simp only [eraseKey, if_pos hk, List.map_cons]
      exact List.sublist_cons_self _ _
    · simp only [eraseKey, if_neg hk, List.map_cons]
      exact List.Sublist.cons₂ _ ih

/-- Counterexample for C9: even a run whose merge loop never executes (a
single-cluster partition) removes `score_thresh` and `low_thresh` from the
caller's thresholds mapping: the key is present before the call and gone
from the returned mapping. -/
theorem thresholds_keys_removed :
    merge_clusters_by_de sampleKernel sampleScorer 1 [(7, [0])] sampleMeans sampleVars
      samplePresent sampleRd sampleTh 2 =
      Res.ok (⟨[(7, [0])], sampleMeans, sampleVars, samplePresent, sampleRd, [(7, 1)]⟩, [], []) ∧
    getKey sampleTh "score_thresh" = some (some 100) ∧
    getKey ([] : Thresholds) "score_thresh" = none := by
  refine ⟨?_, by simp [sampleTh, getKey, String.reduceEq], rfl⟩
  simp [merge_clusters_by_de, popKey, de_loop, sampleTh, getKey, eraseKey, String.reduceEq]

/-- C9 (amended): `merge_clusters_by_de` pops `score_thresh` and `low_thresh`
out of the caller's thresholds mapping — after a normal return those two keys
are gone — while every other key keeps exactly its previous value. -/
theorem thresholds_pop_semantics (kernel : Kernel) (scorer : Scorer) (fuel : Nat)
    (ca : Assignments) (means vars present rd : DF) (th : Thresholds) (k : Nat)
    (st₂ : DEState) (thOut : Thresholds) (logF : List (List (Nat × Nat)))
    (hnd : (th.map Prod.fst).Nodup)
    (h : merge_clusters_by_de kernel scorer fuel ca means vars present rd th k =
      Res.ok (st₂, thOut, logF)) :
    getKey thOut "score_thresh" = none ∧ getKey thOut "low_thresh" = none ∧
      ∀ s : String, s ≠ "score_thresh" → s ≠ "low_thresh" →
        getKey thOut s = getKey th s := by
  unfold merge_clusters_by_de at h
  split at h
  · simp at h
  · rename_i v₁ th₁ hpop₁
    split at h
    · simp at h
    · rename_i v₂ th₂ hpop₂
      unfold popKey at hpop₁ hpop₂
      split at hpop₁
      · simp at hpop₁
      · simp only [Except.ok.injEq, Prod.mk.injEq] at hpop₁
        obtain ⟨hv₁, hth₁⟩ := hpop₁
        split at hpop₂
        · simp at hpop₂
        · simp only [Except.ok.injEq, Prod.mk.injEq] at hpop₂
          obtain ⟨hv₂, hth₂⟩ := hpop₂
          subst hth₁
          subst hth₂
          split at h
          · simp at h
          · simp at h
          · simp only [Res.ok.injEq, Prod.mk.injEq] at h
            obtain ⟨hst, hthOut, hlog⟩ := h
            subst hthOut
            refine ⟨?_, ?_, ?_⟩
            · rw [getKey_eraseKey_ne _ _ _ (by decide)]
              exact getKey_eraseKey_self th "score_thresh" hnd
            · exact getKey_eraseKey_self _ "low_thresh"
                (List.Nodup.sublist (mapFst_eraseKey_sublist th "score_thresh") hnd)
            · intro s hs₁ hs₂
              rw [getKey_eraseKey_ne _ _ _ hs₂, getKey_eraseKey_ne _ _ _ hs₁]

/-- Witness for the amended C9 at a concrete input: after a run over
`DEFAULT_THRESHOLDS`, `score_thresh` and `low_thresh` are gone and every
other default key keeps its value. -/
theorem thresholds_pop_semantics_witness :
    getKey [("q1_thresh", some (1 / 2 : ℚ)), ("q2_thresh", none),
        ("cluster_size_thresh", some 6), ("qdiff_thresh", some (7 / 10)),
        ("padj_thresh", some (1 / 20)), ("lfc_thresh", some 1)] "score_thresh" = none ∧
    getKey [("q1_thresh", some (1 / 2 : ℚ)), ("q2_thresh", none),
        ("cluster_size_thresh", some 6), ("qdiff_thresh", some (7 / 10)),
        ("padj_thresh", some (1 / 20)), ("lfc_thresh", some 1)] "low_thresh" = none ∧
    ∀ s : String, s ≠ "score_thresh" → s ≠ "low_thresh" →
      getKey [("q1_thresh", some (1 / 2 : ℚ)), ("q2_thresh", none),
        ("cluster_size_thresh", some 6), ("qdiff_thresh", some (7 / 10)),
        ("padj_thresh", some (1 / 20)), ("lfc_thresh", some 1)] s =
        getKey DEFAULT_THRESHOLDS s :=
  thresholds_pop_semantics sampleKernel sampleScorer 1 [(7, [0])] sampleMeans sampleVars
    samplePresent sampleRd DEFAULT_THRESHOLDS 2
    ⟨[(7, [0])], sampleMeans, sampleVars, samplePresent, sampleRd, [(7, 1)]⟩
    [("q1_thresh", some (1 / 2)), ("q2_thresh", none), ("cluster_size_thresh", some 6),
      ("qdiff_thresh", some (7 / 10)), ("padj_thresh", some (1 / 20)), ("lfc_thresh", some 1)]
    [] (by decide)
    (by simp [merge_clusters_by_de, popKey, de_loop, DEFAULT_THRESHOLDS, getKey, eraseKey,
      String.reduceEq])

end TC
